import Mathlib

/-!
# MLE3112 automated-experiment core: a verification development

The repository drives a motorized polarizer stage (Thorlabs Kinesis) and an
Avantes spectrometer.  Its core logic is a bounded-retry motor-positioning
routine (`drive_motor`, here `drive_to`) and a position-sweep acquisition loop
(`automated_measurement`, here `run_sweep`) that composes motor moves with
spectrometer reads into a tabular dataset, plus CSV persistence of the result.

The package implementation (`mle3112/motor.py`, `mle3112/spectrometer.py`, and
the notebook solution bodies) is not part of the source tree available here —
the notebooks only call or stub these routines — so the operations below are
modelled from the specification's own description, as indicated on each
definition.

Positions, tolerances and spectra are real-valued in the specification; they
are embedded as rationals (`ℚ`) so that every definition is executable and
every concrete run can be checked by evaluation.
-/

/-- Executable absolute value on `ℚ` (equal to `|·|`, see `ratAbs_eq_abs`). -/
def ratAbs (q : ℚ) : ℚ := if q < 0 then -q else q

/-- A simulated single-axis actuator, the specification's black-box
collaborator exposing "command move to position X" and "read current
position".  `reported n` is the position read back after the `n`-th move
command ever issued to the device (a cursor threaded through the run), so a
simulated actuator may report anything — converging or not. -/
structure Actuator where
  reported : ℕ → ℚ

/-- One hardware interaction, as observable by the spec's contracts:
a move command, a position read-back, or a sensor acquisition trigger. -/
inductive HWEvent where
  | moveCmd (target : ℚ)
  | posRead (value : ℚ)
  | sensorTrigger (integrationTime : ℚ)
  deriving DecidableEq, Repr

/-- Outcome of one `drive_to` call.  `success` carries the reported position
and the number of attempts used; `convergenceFailure` is the spec's
`ActuatorConvergenceFailure`, carrying the last reported position and the
number of attempts made; `invalidParameter` is the spec's
`InvalidParameter`. -/
inductive DriveResult where
  | success (reported : ℚ) (attempts : ℕ)
  | convergenceFailure (lastReported : ℚ) (attempts : ℕ)
  | invalidParameter
  deriving DecidableEq, Repr

/-- Modelled from the spec: the attempt loop of the Actuator Driver §4.1
(`drive_motor` in `mle3112/motor.py`, absent from the source tree).  On each
attempt: issue a move command to `target`, read back the reported position,
succeed if within `tol`, otherwise retry until the remaining attempts are
exhausted, then fail carrying the last reported position and the attempts
made.  Returns the result, the actuator cursor after the call, and the
hardware event trace of the call. -/
def driveLoop (act : Actuator) (target tol : ℚ) :
    ℕ → ℕ → ℕ → ℚ → DriveResult × ℕ × List HWEvent
  | 0, idx, made, lastRep => (.convergenceFailure lastRep made, idx, [])
  | fuel + 1, idx, made, _ =>
      let r := act.reported idx
      if ratAbs (r - target) ≤ tol then
        (.success r (made + 1), idx + 1, [ .moveCmd target, .posRead r ])
      else
        let rest := driveLoop act target tol fuel (idx + 1) (made + 1) r
        (rest.1, rest.2.1, .moveCmd target :: .posRead r :: rest.2.2)

/-- Modelled from the spec: `drive_to(target_position, tolerance,
max_attempts, device_handle)` of §4.1 (`drive_motor` in `mle3112/motor.py`,
absent from the source tree).  Parameter validation happens before any
hardware interaction: tolerance must be positive and `max_attempts` at
least 1, else `InvalidParameter`.  Per §3 the driver itself does not enforce
the 0–360 position range (a caller concern).  In dry-run mode the call
reports success unconditionally — beyond the basic parameter checks, per
§8 — without touching the device.  `idx` is the actuator cursor before the
call. -/
def drive_to (act : Actuator) (target tol : ℚ) (maxAttempts : ℕ)
    (dryRun : Bool) (idx : ℕ) : DriveResult × ℕ × List HWEvent :=
  if tol ≤ 0 then (.invalidParameter, idx, [])
  else if maxAttempts < 1 then (.invalidParameter, idx, [])
  else if dryRun then (.success target 0, idx, [])
  else driveLoop act target tol maxAttempts idx 0 target

/-- Number of move commands in a hardware event trace. -/
def moveCount (evs : List HWEvent) : ℕ :=
  (evs.filter fun e => match e with | .moveCmd _ => true | _ => false).length

/-- One row of the sweep dataset: the motor position together with the
wavelength and intensity sequences read from the spectrometer there. -/
structure MeasurementSample where
  position : ℚ
  wavelength : List ℚ
  intensity : List ℚ
  deriving DecidableEq, Repr

/-- The simulated spectrometer collaborator: `spectrum n` is the
`(wavelength, intensity)` pair returned by the `n`-th acquisition, or
`none` when that acquisition faults (the spec's
`SensorAcquisitionFailure`). -/
structure Sensor where
  spectrum : ℕ → Option (List ℚ × List ℚ)

/-- Failures of a sweep, per the spec's error taxonomy §7.  The hardware
failures carry the samples completed before the abort, so that the
propagated error reflects exactly the completed prefix. -/
inductive SweepError where
  | invalidParameter
  | actuatorFailure (lastReported : ℚ) (attempts : ℕ)
      (completed : List MeasurementSample)
  | sensorFailure (completed : List MeasurementSample)
  deriving DecidableEq, Repr

/-- The `sweep_config` bundle of §4.2: tolerance and retry budget for the
actuator, integration time passed opaquely to the sensor, and the dry-run
flag. -/
structure SweepConfig where
  tol : ℚ
  maxAttempts : ℕ
  integrationTime : ℚ
  dryRun : Bool

/-- Modelled from the spec: the number of generated sweep positions — the
values `start + k * step` that are strictly less than `stop`, half-open
range semantics (§4.2). -/
def posCount (start stop step : ℚ) : ℕ :=
  if 0 < step then (⌈(stop - start) / step⌉).toNat else 0

/-- Modelled from the spec: the arithmetic position sequence
`start, start + step, start + 2 * step, ...` while the current value is
strictly less than `stop` (§4.2, `automated_measurement` in the tasks
notebook, whose body is a stub). -/
def sweepPositions (start stop step : ℚ) : List ℚ :=
  (List.range (posCount start stop step)).map fun k : ℕ => start + (k : ℚ) * step

/-- Modelled from the spec: the per-position body of the Sweep Controller
§4.2 (`automated_measurement`, whose body is a stub in the tasks notebook).
Drive the actuator to each position in turn; on convergence failure abort
the whole sweep, propagating the failure together with the samples
completed so far; on success read the sensor (bypassed in dry-run mode,
which records the position with empty sequences) and append the sample.
`mi` is the actuator cursor, `si` the sensor acquisition counter and `acc`
the reversed accumulator of completed samples. -/
def sweepLoop (act : Actuator) (sensor : Sensor) (cfg : SweepConfig) :
    List ℚ → ℕ → ℕ → List MeasurementSample →
    (Except SweepError (List MeasurementSample)) × List HWEvent
  | [], _, _, acc => (.ok acc.reverse, [])
  | p :: ps, mi, si, acc =>
    let d := drive_to act p cfg.tol cfg.maxAttempts cfg.dryRun mi
    match d.1 with
    | .invalidParameter => (.error .invalidParameter, d.2.2)
    | .convergenceFailure l n =>
        (.error (.actuatorFailure l n acc.reverse), d.2.2)
    | .success _ _ =>
        if cfg.dryRun then
          let out := sweepLoop act sensor cfg ps d.2.1 si (⟨p, [], []⟩ :: acc)
          (out.1, d.2.2 ++ out.2)
        else
          match sensor.spectrum si with
          | none =>
              (.error (.sensorFailure acc.reverse),
               d.2.2 ++ [ .sensorTrigger cfg.integrationTime ])
          | some (wl, it) =>
              let out := sweepLoop act sensor cfg ps d.2.1 (si + 1)
                (⟨p, wl, it⟩ :: acc)
              (out.1, d.2.2 ++ .sensorTrigger cfg.integrationTime :: out.2)

/-- The Sweep Controller run over an explicitly given position sequence,
starting from fresh cursors and an empty result. -/
def runSweepOn (act : Actuator) (sensor : Sensor) (cfg : SweepConfig)
    (ps : List ℚ) : (Except SweepError (List MeasurementSample)) × List HWEvent :=
  sweepLoop act sensor cfg ps 0 0 []

/-- Modelled from the spec: `run_sweep(start, stop, step, sweep_config)` of
§4.2.  The caller must ensure `step > 0` when `stop > start`, else
`InvalidParameter`; otherwise the generated positions are visited in
order. -/
def run_sweep (act : Actuator) (sensor : Sensor) (cfg : SweepConfig)
    (start stop step : ℚ) :
    (Except SweepError (List MeasurementSample)) × List HWEvent :=
  if start < stop ∧ step ≤ 0 then (.error .invalidParameter, [])
  else runSweepOn act sensor cfg (sweepPositions start stop step)

/-- The actuator cursor after driving each position of `ps` in turn from
cursor `mi` (how many move commands the sweep prefix has issued). -/
def motorAfter (act : Actuator) (cfg : SweepConfig) (ps : List ℚ) (mi : ℕ) : ℕ :=
  ps.foldl (fun i p => (drive_to act p cfg.tol cfg.maxAttempts cfg.dryRun i).2.1) mi

/-- A Python numeric value at the `automated_measurement` interface: either
an `int` or a `float` (floats carried exactly, their value being irrelevant
to the typing behaviour modelled here). -/
inductive PyNum where
  | pyInt (n : ℤ)
  | pyFloat (q : ℚ)
  deriving DecidableEq, Repr

/-- Whether a Python numeric value is a `float`. -/
def PyNum.isFloat : PyNum → Bool
  | .pyFloat _ => true
  | _ => false

/-- Errors raised by Python's `range` builtin: `TypeError` for non-integer
arguments, `ValueError` for a zero step. -/
inductive PyError where
  | typeError
  | valueError
  deriving DecidableEq, Repr

/-- The integer sequence of Python's `range(a, b, c)` for `c ≠ 0`:
`a, a + c, a + 2 * c, ...` while strictly less than `b` (ascending case)
or strictly greater than `b` (descending case); the element count is the
usual floor-division formula. -/
def rangeZ (a b c : ℤ) : List ℤ :=
  if 0 < c then
    (List.range ((b - a + c - 1).fdiv c).toNat).map fun k : ℕ => a + (k : ℤ) * c
  else if c < 0 then
    (List.range ((a - b + (-c) - 1).fdiv (-c)).toNat).map fun k : ℕ => a + (k : ℤ) * c
  else []

/-- Modelled from the spec and the tasks notebook: the position list of
`automated_measurement` is produced by Python's built-in
`range(start, stop, step)` (the notebook's instruction at the stub), which
accepts only integer arguments — any `float` argument raises `TypeError`
before any position is generated, and a zero step raises `ValueError`. -/
def pyRange (a b c : PyNum) : Except PyError (List ℤ) :=
  match a, b, c with
  | .pyInt x, .pyInt y, .pyInt z =>
      if z = 0 then .error .valueError else .ok (rangeZ x y z)
  | _, _, _ => .error .typeError

/-- The decimal digit character for `d` (meaningful for 0–9, the only
inputs produced by `natDigits`): code point 48 + `d`. -/
def digitChar (d : ℕ) : Char := Char.ofNat (48 + d)

/-- The numeric value of a decimal digit character, `none` on anything
else. -/
def charDigit (c : Char) : Option ℕ :=
  if 48 ≤ c.toNat ∧ c.toNat ≤ 57 then some (c.toNat - 48) else none

/-- Big-endian decimal digits of a natural number (never empty). -/
def natDigits (n : ℕ) : List ℕ :=
  if _h : n < 10 then [n] else natDigits (n / 10) ++ [n % 10]
termination_by n
decreasing_by exact Nat.div_lt_self (by omega) (by omega)

/-- Decimal text of a natural number. -/
def natChars (n : ℕ) : List Char := (natDigits n).map digitChar

/-- Decimal text of an integer, with a leading minus sign when negative. -/
def intChars (n : ℤ) : List Char :=
  if n < 0 then '-' :: natChars n.natAbs else natChars n.toNat

/-- Exact text of a rational: numerator, a slash, denominator.  The spec
fixes only round-trip fidelity of the numeric values, leaving the literal
encoding an implementation choice (§6); this encoding is exact. -/
def ratChars (q : ℚ) : List Char := intChars q.num ++ '/' :: natChars q.den

/-- Body of the textual list literal for a numeric sequence: the
comma-separated elements followed by the closing bracket. -/
def seqChars : List ℚ → List Char
  | [] => [ ']' ]
  | [q] => ratChars q ++ [ ']' ]
  | q :: qs => ratChars q ++ ',' :: seqChars qs

/-- The textual list literal for a numeric sequence (§6: sequence-valued
columns are serialized as textual list literals). -/
def listChars (qs : List ℚ) : List Char := '[' :: seqChars qs

/-- One persisted row: position, wavelength literal, intensity literal,
comma-separated and newline-terminated. -/
def rowChars (s : MeasurementSample) : List Char :=
  ratChars s.position ++ ',' :: listChars s.wavelength
    ++ ',' :: listChars s.intensity ++ [ '\n' ]

/-- The persisted tabular text of a sweep result, row per sample. -/
def tableChars : List MeasurementSample → List Char
  | [] => []
  | s :: rs => rowChars s ++ tableChars rs

/-- Serialize a sweep result to the persisted tabular format (§6). -/
def serializeSweep (rs : List MeasurementSample) : List Char := tableChars rs

/-- Split the longest decimal-digit prefix off a text. -/
def takeDigits : List Char → List ℕ × List Char
  | [] => ([], [])
  | c :: cs =>
    match charDigit c with
    | some d => let p := takeDigits cs; (d :: p.1, p.2)
    | none => ([], c :: cs)

/-- The value of a big-endian decimal digit list. -/
def digitsVal (ds : List ℕ) : ℕ := ds.foldl (fun a d => 10 * a + d) 0

/-- Read a natural number off the front of a text (at least one digit). -/
def parseNatP (cs : List Char) : Option (ℕ × List Char) :=
  match takeDigits cs with
  | ([], _) => none
  | (ds, rest) => some (digitsVal ds, rest)

/-- Read an integer off the front of a text: an optional minus sign, then
digits. -/
def parseIntP : List Char → Option (ℤ × List Char)
  | [] => none
  | c :: cs =>
    if c = '-' then
      match parseNatP cs with
      | some (n, rest) => some (-(n : ℤ), rest)
      | none => none
    else
      match parseNatP (c :: cs) with
      | some (n, rest) => some ((n : ℤ), rest)
      | none => none

/-- Consume one expected character off the front of a text. -/
def expectChar (c : Char) : List Char → Option (List Char)
  | d :: cs => if d = c then some cs else none
  | [] => none

/-- Read a rational off the front of a text: numerator, slash,
denominator. -/
def parseRatP (cs : List Char) : Option (ℚ × List Char) :=
  match parseIntP cs with
  | none => none
  | some (n, r1) =>
    match r1 with
    | '/' :: r2 =>
      match parseNatP r2 with
      | some (d, r3) => some (mkRat n d, r3)
      | none => none
    | _ => none

/-- Read the body of a list literal (elements up to and including the
closing bracket); `fuel` bounds the element count for termination. -/
def parseSeqAux : ℕ → List Char → Option (List ℚ × List Char)
  | 0, _ => none
  | _ + 1, [] => none
  | fuel + 1, c :: cs =>
    if c = ']' then some ([], cs)
    else
      match parseRatP (c :: cs) with
      | none => none
      | some (q, r1) =>
        match r1 with
        | ']' :: r2 => some ([q], r2)
        | ',' :: r2 =>
          match parseSeqAux fuel r2 with
          | some (qs, r3) => some (q :: qs, r3)
          | none => none
        | _ => none

/-- Read a textual list literal off the front of a text, parsing it back
into a numeric sequence (§6). -/
def parseListP (cs : List Char) : Option (List ℚ × List Char) :=
  match cs with
  | '[' :: r => parseSeqAux r.length r
  | _ => none

/-- Read one persisted row back into a sample. -/
def parseRowP (cs : List Char) : Option (MeasurementSample × List Char) :=
  match parseRatP cs with
  | none => none
  | some (pos, r1) =>
    match expectChar ',' r1 with
    | none => none
    | some r2 =>
      match parseListP r2 with
      | none => none
      | some (wl, r3) =>
        match expectChar ',' r3 with
        | none => none
        | some r4 =>
          match parseListP r4 with
          | none => none
          | some (it, r5) =>
            match expectChar '\n' r5 with
            | none => none
            | some r6 => some (⟨pos, wl, it⟩, r6)

/-- Read all persisted rows back; `fuel` bounds the row count. -/
def parseTableAux : ℕ → List Char → Option (List MeasurementSample)
  | _, [] => some []
  | 0, _ :: _ => none
  | fuel + 1, c :: cs =>
    match parseRowP (c :: cs) with
    | some (s, rest) =>
      match parseTableAux fuel rest with
      | some rs => some (s :: rs)
      | none => none
    | none => none

/-- Deserialize a persisted tabular text back into a sweep result. -/
def deserializeSweep (cs : List Char) : Option (List MeasurementSample) :=
  parseTableAux cs.length cs

/-- Decidable equality of `Except` results, so that concrete sweep runs can
be checked by evaluation. -/
instance {ε α : Type} [DecidableEq ε] [DecidableEq α] :
    DecidableEq (Except ε α) := fun a b =>
  match a, b with
  | .ok x, .ok y => if h : x = y then .isTrue (by rw [h]) else .isFalse (by simp [h])
  | .error x, .error y => if h : x = y then .isTrue (by rw [h]) else .isFalse (by simp [h])
  | .ok _, .error _ => .isFalse (by simp)
  | .error _, .ok _ => .isFalse (by simp)

/-! ## Basic facts about the embedded operations -/

theorem ratAbs_eq_abs (q : ℚ) : ratAbs q = |q| := by
  unfold ratAbs
  rcases lt_or_le q 0 with h | h
  · rw [if_pos h, abs_of_neg h]
  · rw [if_neg (not_lt.mpr h), abs_of_nonneg h]

theorem moveCount_nil : moveCount [] = 0 := rfl

theorem moveCount_moveCmd (t : ℚ) (evs : List HWEvent) :
    moveCount (.moveCmd t :: evs) = moveCount evs + 1 := by
  simp [moveCount]

theorem moveCount_posRead (v : ℚ) (evs : List HWEvent) :
    moveCount (.posRead v :: evs) = moveCount evs := by
  simp [moveCount]

theorem moveCount_sensorTrigger (t : ℚ) (evs : List HWEvent) :
    moveCount (.sensorTrigger t :: evs) = moveCount evs := by
  simp [moveCount]

theorem moveCount_append (a b : List HWEvent) :
    moveCount (a ++ b) = moveCount a + moveCount b := by
  simp [moveCount]

theorem driveLoop_zero (act : Actuator) (target tol : ℚ) (idx made : ℕ)
    (lastRep : ℚ) :
    driveLoop act target tol 0 idx made lastRep
      = (.convergenceFailure lastRep made, idx, []) := rfl

theorem driveLoop_succ (act : Actuator) (target tol : ℚ) (fuel idx made : ℕ)
    (lastRep : ℚ) :
    driveLoop act target tol (fuel + 1) idx made lastRep
      = if ratAbs (act.reported idx - target) ≤ tol then
          (.success (act.reported idx) (made + 1), idx + 1,
           [ .moveCmd target, .posRead (act.reported idx) ])
        else
          ((driveLoop act target tol fuel (idx + 1) (made + 1) (act.reported idx)).1,
           (driveLoop act target tol fuel (idx + 1) (made + 1) (act.reported idx)).2.1,
           .moveCmd target :: .posRead (act.reported idx) ::
             (driveLoop act target tol fuel (idx + 1) (made + 1) (act.reported idx)).2.2) := rfl

/-- When the simulated actuator never reports within tolerance, the attempt
loop burns all its fuel: it fails carrying the last read-back, advances the
cursor by the fuel, and issues one move command per unit of fuel. -/
theorem driveLoop_of_never_converges (act : Actuator) (target tol : ℚ)
    (hnc : ∀ n, ¬ ratAbs (act.reported n - target) ≤ tol) :
    ∀ (fuel idx made : ℕ) (lastRep : ℚ),
      (driveLoop act target tol (fuel + 1) idx made lastRep).1
          = .convergenceFailure (act.reported (idx + fuel)) (made + fuel + 1)
        ∧ (driveLoop act target tol (fuel + 1) idx made lastRep).2.1 = idx + fuel + 1
        ∧ moveCount (driveLoop act target tol (fuel + 1) idx made lastRep).2.2
            = fuel + 1 := by
  intro fuel
  induction fuel with
  | zero =>
    intro idx made lastRep
    rw [driveLoop_succ, if_neg (hnc idx)]
    refine ⟨?_, ?_, ?_⟩
    · rw [driveLoop_zero]
      simp
    · rw [driveLoop_zero]
    · rw [moveCount_moveCmd, moveCount_posRead, driveLoop_zero, moveCount_nil]
  | succ fuel ih =>
    intro idx made lastRep
    obtain ⟨h1, h2, h3⟩ := ih (idx + 1) (made + 1) (act.reported idx)
    rw [driveLoop_succ, if_neg (hnc idx)]
    dsimp only
    have e1 : idx + 1 + fuel = idx + (fuel + 1) := by omega
    have e2 : made + 1 + fuel + 1 = made + (fuel + 1) + 1 := by omega
    refine ⟨?_, ?_, ?_⟩
    · rw [h1, e1, e2]
    · rw [h2]
      omega
    · rw [moveCount_moveCmd, moveCount_posRead, h3]

/-- Claim C1: for every target position, tolerance > 0, max_attempts ≥ 1, and
actuator whose reported position never comes within tolerance of the target,
`drive_to` issues exactly `max_attempts` move commands and then fails with
`ActuatorConvergenceFailure` carrying the last reported position and the
number of attempts made; it never issues more than `max_attempts` commands. -/
theorem drive_to_exhausts_when_never_converging
    (act : Actuator) (target tol : ℚ) (maxAttempts idx : ℕ)
    (htol : 0 < tol) (hmax : 1 ≤ maxAttempts)
    (hnc : ∀ n, ¬ |act.reported n - target| ≤ tol) :
    (drive_to act target tol maxAttempts false idx).1
        = .convergenceFailure (act.reported (idx + maxAttempts - 1)) maxAttempts
      ∧ moveCount (drive_to act target tol maxAttempts false idx).2.2
          = maxAttempts := by
  have hnc' : ∀ n, ¬ ratAbs (act.reported n - target) ≤ tol := by
    intro n
    rw [ratAbs_eq_abs]
    exact hnc n
  obtain ⟨fuel, rfl⟩ : ∃ fuel, maxAttempts = fuel + 1 := ⟨maxAttempts - 1, by omega⟩
  obtain ⟨h1, _, h3⟩ := driveLoop_of_never_converges act target tol hnc' fuel idx 0 target
  have hdrive :
      drive_to act target tol (fuel + 1) false idx
        = driveLoop act target tol (fuel + 1) idx 0 target := by
    unfold drive_to
    rw [if_neg (not_le.mpr htol), if_neg (by omega : ¬ fuel + 1 < 1)]
    simp
  rw [hdrive]
  have e : idx + (fuel + 1) - 1 = idx + fuel := by omega
  rw [e, h1, h3]
  constructor
  · simp
  · rfl

/-- Witness for C1 at a concrete input: an actuator stuck at 100, target 0,
tolerance 1, three attempts. -/
theorem drive_to_exhausts_when_never_converging_witness :
    ((0:ℚ) < 1) ∧ (1 ≤ 3)
      ∧ (∀ n : ℕ, ¬ |(Actuator.mk fun _ => 100).reported n - 0| ≤ (1:ℚ))
      ∧ (drive_to ⟨fun _ => 100⟩ 0 1 3 false 0).1 = .convergenceFailure 100 3
      ∧ moveCount (drive_to ⟨fun _ => 100⟩ 0 1 3 false 0).2.2 = 3 := by
  have hnc : ∀ _ : ℕ, ¬ |(100:ℚ) - 0| ≤ (1:ℚ) :=
    fun _ => by with_unfolding_all decide
  refine ⟨by with_unfolding_all decide, by omega, hnc, ?_, ?_⟩
  · exact (drive_to_exhausts_when_never_converging ⟨fun _ => 100⟩ 0 1 3 0
      (by with_unfolding_all decide) (by omega) hnc).1
  · exact (drive_to_exhausts_when_never_converging ⟨fun _ => 100⟩ 0 1 3 0
      (by with_unfolding_all decide) (by omega) hnc).2

/-- When the simulated actuator first reports within tolerance on the read
with relative index `k` (zero-based), the attempt loop succeeds there with
`k + 1` attempts, advancing the cursor accordingly and issuing `k + 1` move
commands. -/
theorem driveLoop_of_first_convergence (act : Actuator) (target tol : ℚ) :
    ∀ (k fuel idx made : ℕ) (lastRep : ℚ),
      k < fuel →
      ratAbs (act.reported (idx + k) - target) ≤ tol →
      (∀ j, j < k → ¬ ratAbs (act.reported (idx + j) - target) ≤ tol) →
      (driveLoop act target tol fuel idx made lastRep).1
          = .success (act.reported (idx + k)) (made + k + 1)
        ∧ (driveLoop act target tol fuel idx made lastRep).2.1 = idx + k + 1
        ∧ moveCount (driveLoop act target tol fuel idx made lastRep).2.2
            = k + 1 := by
  intro k
  induction k with
  | zero =>
    intro fuel idx made lastRep hk hconv _
    obtain ⟨f, rfl⟩ : ∃ f, fuel = f + 1 := ⟨fuel - 1, by omega⟩
    have hc : ratAbs (act.reported idx - target) ≤ tol := by simpa using hconv
    rw [driveLoop_succ, if_pos hc]
    refine ⟨by simp, rfl, ?_⟩
    rw [moveCount_moveCmd, moveCount_posRead, moveCount_nil]
  | succ k ih =>
    intro fuel idx made lastRep hk hconv hprev
    obtain ⟨f, rfl⟩ : ∃ f, fuel = f + 1 := ⟨fuel - 1, by omega⟩
    have h0 : ¬ ratAbs (act.reported idx - target) ≤ tol := by
      have h := hprev 0 (by omega)
      simpa using h
    have ea : idx + 1 + k = idx + (k + 1) := by omega
    obtain ⟨h1, h2, h3⟩ := ih f (idx + 1) (made + 1) (act.reported idx)
      (by omega)
      (by rw [ea]; exact hconv)
      (by
        intro j hj
        have eb : idx + 1 + j = idx + (j + 1) := by omega
        rw [eb]
        exact hprev (j + 1) (by omega))
    rw [driveLoop_succ, if_neg h0]
    dsimp only
    have e1 : made + 1 + k + 1 = made + (k + 1) + 1 := by omega
    have e2 : idx + 1 + k + 1 = idx + (k + 1) + 1 := by omega
    refine ⟨?_, ?_, ?_⟩
    · rw [h1, ea, e1]
    · rw [h2, e2]
    · rw [moveCount_moveCmd, moveCount_posRead, h3]

/-- Claim C2: for every target position and tolerance > 0, if the simulated
actuator's reported position first satisfies `|reported - target| ≤ tol` on
attempt `k` with `1 ≤ k ≤ max_attempts`, then `drive_to` succeeds, issues
exactly `k` move commands, and on success the reported position is within
tolerance of the target. -/
theorem drive_to_succeeds_at_first_convergence
    (act : Actuator) (target tol : ℚ) (maxAttempts k idx : ℕ)
    (htol : 0 < tol) (hk1 : 1 ≤ k) (hkm : k ≤ maxAttempts)
    (hconv : |act.reported (idx + k - 1) - target| ≤ tol)
    (hprev : ∀ j, j < k - 1 → ¬ |act.reported (idx + j) - target| ≤ tol) :
    (drive_to act target tol maxAttempts false idx).1
        = .success (act.reported (idx + k - 1)) k
      ∧ moveCount (drive_to act target tol maxAttempts false idx).2.2 = k
      ∧ |act.reported (idx + k - 1) - target| ≤ tol := by
  have e : idx + (k - 1) = idx + k - 1 := by omega
  obtain ⟨h1, _, h3⟩ := driveLoop_of_first_convergence act target tol
    (k - 1) maxAttempts idx 0 target
    (by omega)
    (by rw [ratAbs_eq_abs, e]; exact hconv)
    (by
      intro j hj
      rw [ratAbs_eq_abs]
      exact hprev j hj)
  have hdrive :
      drive_to act target tol maxAttempts false idx
        = driveLoop act target tol maxAttempts idx 0 target := by
    unfold drive_to
    rw [if_neg (not_le.mpr htol), if_neg (by omega : ¬ maxAttempts < 1)]
    simp
  have ek : 0 + (k - 1) + 1 = k := by omega
  rw [hdrive, h1, h3, e, ek]
  exact ⟨rfl, by omega, hconv⟩

/-- Witness for C2 at a concrete input: an actuator reporting 50 on its
first read and 0 afterwards, target 0, tolerance 1, convergence on attempt
2 of 3. -/
theorem drive_to_succeeds_at_first_convergence_witness :
    ((0:ℚ) < 1) ∧ (1 ≤ 2) ∧ (2 ≤ 3)
      ∧ (|(Actuator.mk fun n => if n = 0 then 50 else 0).reported (0 + 2 - 1) - 0| ≤ (1:ℚ))
      ∧ (∀ j : ℕ, j < 2 - 1 →
          ¬ |(Actuator.mk fun n => if n = 0 then 50 else 0).reported (0 + j) - 0| ≤ (1:ℚ))
      ∧ (drive_to ⟨fun n => if n = 0 then 50 else 0⟩ 0 1 3 false 0).1 = .success 0 2
      ∧ moveCount (drive_to ⟨fun n => if n = 0 then 50 else 0⟩ 0 1 3 false 0).2.2 = 2 := by
  have hprev : ∀ j : ℕ, j < 2 - 1 →
      ¬ |(Actuator.mk fun n => if n = 0 then 50 else 0).reported (0 + j) - 0| ≤ (1:ℚ) := by
    intro j hj
    have hj0 : j = 0 := by omega
    subst hj0
    with_unfolding_all decide
  refine ⟨by with_unfolding_all decide, by omega, by omega,
    by with_unfolding_all decide, hprev, ?_, ?_⟩
  · exact (drive_to_succeeds_at_first_convergence ⟨fun n => if n = 0 then 50 else 0⟩
      0 1 3 2 0 (by with_unfolding_all decide) (by omega) (by omega)
      (by with_unfolding_all decide) hprev).1
  · exact (drive_to_succeeds_at_first_convergence ⟨fun n => if n = 0 then 50 else 0⟩
      0 1 3 2 0 (by with_unfolding_all decide) (by omega) (by omega)
      (by with_unfolding_all decide) hprev).2.1

/-- With valid parameters and dry-run off, `drive_to` runs the attempt
loop from the cursor with a fresh attempt counter. -/
theorem drive_to_run (act : Actuator) (target tol : ℚ) (maxAttempts idx : ℕ)
    (htol : 0 < tol) (hmax : 1 ≤ maxAttempts) :
    drive_to act target tol maxAttempts false idx
      = driveLoop act target tol maxAttempts idx 0 target := by
  unfold drive_to
  rw [if_neg (not_le.mpr htol), if_neg (by omega : ¬ maxAttempts < 1)]
  simp

/-- A successful attempt loop stops at a read-back within tolerance: the
reported value it returns satisfies the convergence predicate and is the
read-back just before the final cursor. -/
theorem driveLoop_success_within_tol (act : Actuator) (target tol : ℚ) :
    ∀ (fuel idx made : ℕ) (lastRep r : ℚ) (n : ℕ),
      (driveLoop act target tol fuel idx made lastRep).1 = .success r n →
      ratAbs (r - target) ≤ tol
        ∧ act.reported ((driveLoop act target tol fuel idx made lastRep).2.1 - 1)
            = r := by
  intro fuel
  induction fuel with
  | zero =>
    intro idx made lastRep r n h
    rw [driveLoop_zero] at h
    exact absurd h (by simp)
  | succ fuel ih =>
    intro idx made lastRep r n h
    by_cases hc : ratAbs (act.reported idx - target) ≤ tol
    · rw [driveLoop_succ, if_pos hc] at h ⊢
      have hr : act.reported idx = r := by
        have := h
        simp only [DriveResult.success.injEq] at this
        exact this.1
      subst hr
      exact ⟨hc, by simp⟩
    · rw [driveLoop_succ, if_neg hc] at h ⊢
      dsimp only at h ⊢
      exact ih (idx + 1) (made + 1) (act.reported idx) r n h

/-- Claim C8 (amended): for every call with `tolerance ≤ 0` or
`max_attempts < 1`, dry-run or not, `drive_to` fails with `InvalidParameter`
before any hardware interaction — the event trace is empty and the cursor
unmoved.  (The position range is not validated by the driver, per §3.) -/
theorem drive_to_invalid_params_fail_fast
    (act : Actuator) (target tol : ℚ) (maxAttempts idx : ℕ) (dryRun : Bool)
    (h : tol ≤ 0 ∨ maxAttempts < 1) :
    drive_to act target tol maxAttempts dryRun idx
      = (.invalidParameter, idx, []) := by
  unfold drive_to
  rcases h with h | h
  · rw [if_pos h]
  · by_cases ht : tol ≤ 0
    · rw [if_pos ht]
    · rw [if_neg ht, if_pos h]

/-- Witness for the amended C8 at a concrete input: zero tolerance. -/
theorem drive_to_invalid_params_fail_fast_witness :
    ((0:ℚ) ≤ 0 ∨ (5:ℕ) < 1)
      ∧ drive_to ⟨fun _ => 0⟩ 10 0 5 false 0 = (.invalidParameter, 0, []) :=
  ⟨Or.inl (le_refl 0),
   drive_to_invalid_params_fail_fast ⟨fun _ => 0⟩ 10 0 5 0 false
     (Or.inl (le_refl 0))⟩

/-- Claim C8 counterexample: a target position outside the caller's
0–360-degree domain is not rejected by `drive_to` — with valid tolerance
and budget the call at target 400 does not fail with `InvalidParameter`
and does interact with the hardware (a non-empty event trace). -/
theorem drive_to_out_of_range_not_rejected_cex :
    (drive_to ⟨fun _ => 400⟩ 400 1 1 false 0).1 ≠ .invalidParameter
      ∧ (drive_to ⟨fun _ => 400⟩ 400 1 1 false 0).2.2 ≠ [] := by
  constructor
  · with_unfolding_all decide
  · with_unfolding_all decide

/-- Claim C9 (amended): repeating a `drive_to` call that just succeeded with
the same target is a no-op re-confirming convergence — provided the actuator
is stable under the re-issued command, i.e. the next read-back repeats the
reported position.  The repeat then succeeds on its first attempt with the
same reported position. -/
theorem drive_to_idempotent_repeat
    (act : Actuator) (target tol : ℚ) (maxAttempts idx : ℕ) (r : ℚ) (n : ℕ)
    (htol : 0 < tol) (hmax : 1 ≤ maxAttempts)
    (hfirst : (drive_to act target tol maxAttempts false idx).1 = .success r n)
    (hstable :
      act.reported ((drive_to act target tol maxAttempts false idx).2.1) = r) :
    drive_to act target tol maxAttempts false
        ((drive_to act target tol maxAttempts false idx).2.1)
      = (.success r 1,
         (drive_to act target tol maxAttempts false idx).2.1 + 1,
         [ .moveCmd target, .posRead r ]) := by
  have hrun := drive_to_run act target tol maxAttempts idx htol hmax
  rw [hrun] at hfirst hstable ⊢
  have hin := (driveLoop_success_within_tol act target tol maxAttempts idx 0
    target r n hfirst).1
  obtain ⟨fuel, rfl⟩ : ∃ fuel, maxAttempts = fuel + 1 := ⟨maxAttempts - 1, by omega⟩
  rw [drive_to_run act target tol (fuel + 1)
    ((driveLoop act target tol (fuel + 1) idx 0 target).2.1) htol hmax]
  rw [driveLoop_succ, if_pos (by rw [hstable]; exact hin), hstable]

/-- Witness for the amended C9 at a concrete input: a stable actuator
pinned at 5, target 5, tolerance 1. -/
theorem drive_to_idempotent_repeat_witness :
    ((0:ℚ) < 1) ∧ (1 ≤ 2)
      ∧ (drive_to ⟨fun _ => 5⟩ 5 1 2 false 0).1 = .success 5 1
      ∧ (Actuator.mk fun _ => 5).reported
          ((drive_to ⟨fun _ => 5⟩ 5 1 2 false 0).2.1) = 5
      ∧ drive_to ⟨fun _ => 5⟩ 5 1 2 false
            ((drive_to ⟨fun _ => 5⟩ 5 1 2 false 0).2.1)
          = (.success 5 1, (drive_to ⟨fun _ => 5⟩ 5 1 2 false 0).2.1 + 1,
             [ .moveCmd 5, .posRead 5 ]) := by
  refine ⟨by with_unfolding_all decide, by omega, by with_unfolding_all decide,
    by with_unfolding_all decide, ?_⟩
  exact drive_to_idempotent_repeat ⟨fun _ => 5⟩ 5 1 2 0 5 1
    (by with_unfolding_all decide) (by omega)
    (by with_unfolding_all decide) (by with_unfolding_all decide)

set_option maxRecDepth 4000 in
/-- Claim C9 counterexample: as stated — without a stability assumption on
the actuator — the claim fails.  This simulated actuator reports 0 on its
first read-back and 1000 afterwards: `drive_to` to target 0 (tolerance 1,
two attempts) succeeds on its first attempt, yet immediately repeating the
call does not succeed at all (let alone on its first attempt without moving):
it fails with `ActuatorConvergenceFailure` at reported position 1000. -/
theorem drive_to_repeat_can_fail_cex :
    (drive_to ⟨fun n => if n = 0 then 0 else 1000⟩ 0 1 2 false 0).1
        = .success 0 1
      ∧ (drive_to ⟨fun n => if n = 0 then 0 else 1000⟩ 0 1 2 false
            ((drive_to ⟨fun n => if n = 0 then 0 else 1000⟩ 0 1 2 false 0).2.1)).1
          = .convergenceFailure 1000 2 := by
  constructor
  · with_unfolding_all decide
  · with_unfolding_all decide

/-- The full value of a dry-run `drive_to`: no events, cursor unmoved, and
the result determined by the basic parameter checks alone. -/
theorem drive_to_dry_run_eq (act : Actuator) (target tol : ℚ)
    (maxAttempts idx : ℕ) :
    drive_to act target tol maxAttempts true idx
      = (if tol ≤ 0 then .invalidParameter
         else if maxAttempts < 1 then .invalidParameter
         else .success target 0, idx, []) := by
  unfold drive_to
  by_cases h1 : tol ≤ 0
  · rw [if_pos h1, if_pos h1]
  · rw [if_neg h1, if_neg h1]
    by_cases h2 : maxAttempts < 1
    · rw [if_pos h2, if_pos h2]
    · rw [if_neg h2, if_neg h2, if_pos rfl]

/-- In dry-run mode the sweep loop emits no hardware events and can fail
only on invalid parameters — never with an actuator or sensor failure. -/
theorem sweepLoop_dry (act : Actuator) (sensor : Sensor) (cfg : SweepConfig)
    (hdry : cfg.dryRun = true) :
    ∀ (ps : List ℚ) (mi si : ℕ) (acc : List MeasurementSample),
      (sweepLoop act sensor cfg ps mi si acc).2 = []
        ∧ (∀ l n done, (sweepLoop act sensor cfg ps mi si acc).1
              ≠ .error (.actuatorFailure l n done))
        ∧ (∀ done, (sweepLoop act sensor cfg ps mi si acc).1
              ≠ .error (.sensorFailure done)) := by
  intro ps
  induction ps with
  | nil =>
    intro mi si acc
    refine ⟨rfl, ?_, ?_⟩
    · intro l n done
      simp [sweepLoop]
    · intro done
      simp [sweepLoop]
  | cons p ps ih =>
    intro mi si acc
    simp only [sweepLoop]
    rw [hdry, drive_to_dry_run_eq]
    dsimp only
    by_cases h1 : cfg.tol ≤ 0
    · rw [if_pos h1]
      exact ⟨rfl, fun l n done => by simp, fun done => by simp⟩
    · rw [if_neg h1]
      by_cases h2 : cfg.maxAttempts < 1
      · rw [if_pos h2]
        exact ⟨rfl, fun l n done => by simp, fun done => by simp⟩
      · rw [if_neg h2]
        dsimp only
        obtain ⟨he, ha, hs⟩ := ih mi si (⟨p, [], []⟩ :: acc)
        exact ⟨by rw [List.nil_append]; exact he, ha, hs⟩

/-- Claim C5 (amended): with `dry_run = True`, `drive_to` and `run_sweep`
perform zero hardware interactions (no move command, no position read, no
sensor trigger: the event traces are empty), `drive_to` succeeds whenever
the basic parameter checks pass (tolerance > 0, max_attempts ≥ 1), it never
fails with `ActuatorConvergenceFailure`, and `run_sweep` never fails with
`ActuatorConvergenceFailure` or `SensorAcquisitionFailure`: the two
hardware-dependent failure kinds are unreachable under dry-run. -/
theorem dry_run_suppresses_hardware
    (act : Actuator) (sensor : Sensor) (cfg : SweepConfig)
    (target tol start stop step : ℚ) (maxAttempts idx : ℕ)
    (hdry : cfg.dryRun = true) :
    (drive_to act target tol maxAttempts true idx).2.2 = []
      ∧ (∀ l n, (drive_to act target tol maxAttempts true idx).1
            ≠ .convergenceFailure l n)
      ∧ (0 < tol → 1 ≤ maxAttempts →
          (drive_to act target tol maxAttempts true idx).1 = .success target 0)
      ∧ (run_sweep act sensor cfg start stop step).2 = []
      ∧ (∀ l n done, (run_sweep act sensor cfg start stop step).1
            ≠ .error (.actuatorFailure l n done))
      ∧ (∀ done, (run_sweep act sensor cfg start stop step).1
            ≠ .error (.sensorFailure done)) := by
  refine ⟨?_, ?_, ?_, ?_, ?_, ?_⟩
  · rw [drive_to_dry_run_eq]
  · intro l n
    rw [drive_to_dry_run_eq]
    dsimp only
    split_ifs
    · simp
    · simp
    · simp
  · intro h1 h2
    rw [drive_to_dry_run_eq]
    dsimp only
    rw [if_neg (not_le.mpr h1), if_neg (by omega : ¬ maxAttempts < 1)]
  · unfold run_sweep
    split_ifs with hv
    · rfl
    · exact (sweepLoop_dry act sensor cfg hdry
        (sweepPositions start stop step) 0 0 []).1
  · intro l n done
    unfold run_sweep
    split_ifs with hv
    · simp
    · exact (sweepLoop_dry act sensor cfg hdry
        (sweepPositions start stop step) 0 0 []).2.1 l n done
  · intro done
    unfold run_sweep
    split_ifs with hv
    · simp
    · exact (sweepLoop_dry act sensor cfg hdry
        (sweepPositions start stop step) 0 0 []).2.2 done

/-- Witness for the amended C5 at concrete inputs: a dry sweep over three
positions with a sensor that would always fault, and a dry drive. -/
theorem dry_run_suppresses_hardware_witness :
    (SweepConfig.mk 1 2 100 true).dryRun = true
      ∧ (run_sweep ⟨fun _ => 0⟩ ⟨fun _ => none⟩ ⟨1, 2, 100, true⟩ 0 30 10).2 = []
      ∧ (drive_to ⟨fun _ => 0⟩ 7 1 2 true 0).2.2 = []
      ∧ (drive_to ⟨fun _ => 0⟩ 7 1 2 true 0).1 = .success 7 0 := by
  refine ⟨rfl, ?_, ?_, ?_⟩
  · exact (dry_run_suppresses_hardware ⟨fun _ => 0⟩ ⟨fun _ => none⟩
      ⟨1, 2, 100, true⟩ 7 1 0 30 10 2 0 rfl).2.2.2.1
  · exact (dry_run_suppresses_hardware ⟨fun _ => 0⟩ ⟨fun _ => none⟩
      ⟨1, 2, 100, true⟩ 7 1 0 30 10 2 0 rfl).1
  · exact (dry_run_suppresses_hardware ⟨fun _ => 0⟩ ⟨fun _ => none⟩
      ⟨1, 2, 100, true⟩ 7 1 0 30 10 2 0 rfl).2.2.1
      (by decide) (by omega)

/-- Claim C5 counterexample: with `dry_run = True` but tolerance 0 the
basic parameter checks still fire — `drive_to` fails with
`InvalidParameter`, refuting the unconditional "always succeeds". -/
theorem dry_run_invalid_tolerance_cex :
    (drive_to ⟨fun _ => 0⟩ 10 0 5 true 0).1 = .invalidParameter := by
  with_unfolding_all decide

/-- The index `k` yields a generated position exactly when `start + k * step`
is still strictly below `stop` (half-open range semantics). -/
theorem lt_posCount_iff (start stop step : ℚ) (hstep : 0 < step) (k : ℕ) :
    k < posCount start stop step ↔ start + (k : ℚ) * step < stop := by
  unfold posCount
  rw [if_pos hstep, Int.lt_toNat, Int.lt_ceil, lt_div_iff hstep]
  push_cast
  constructor
  · intro h
    linarith
  · intro h
    linarith

/-- Claim C3: for `step > 0` and `stop > start`, the generated sweep
positions are the arithmetic sequence `start, start + step, start + 2*step,
...` consisting of exactly those values strictly less than `stop` (half-open
range); in particular the sweep from 0 to 360 by 15 generates exactly the 24
positions 0, 15, ..., 345, excluding 360. -/
theorem sweep_positions_half_open (start stop step : ℚ)
    (hstep : 0 < step) (hrange : start < stop) :
    (∀ x, x ∈ sweepPositions start stop step
        ↔ ∃ k : ℕ, x = start + (k : ℚ) * step ∧ x < stop)
      ∧ (∀ i (hi : i < (sweepPositions start stop step).length),
          (sweepPositions start stop step).get ⟨i, hi⟩ = start + (i : ℚ) * step)
      ∧ sweepPositions 0 360 15
          = [0, 15, 30, 45, 60, 75, 90, 105, 120, 135, 150, 165,
             180, 195, 210, 225, 240, 255, 270, 285, 300, 315, 330, 345]
      ∧ (sweepPositions 0 360 15).length = 24 := by
  refine ⟨?_, ?_, ?_, ?_⟩
  · intro x
    constructor
    · intro hx
      unfold sweepPositions at hx
      obtain ⟨k, hk, hfx⟩ := List.mem_map.mp hx
      refine ⟨k, hfx.symm, ?_⟩
      rw [← hfx]
      exact (lt_posCount_iff start stop step hstep k).mp (List.mem_range.mp hk)
    · rintro ⟨k, rfl, hx⟩
      unfold sweepPositions
      exact List.mem_map.mpr
        ⟨k, List.mem_range.mpr ((lt_posCount_iff start stop step hstep k).mpr hx),
         rfl⟩
  · intro i hi
    unfold sweepPositions at hi ⊢
    rw [List.get_map, List.get_range]
  · with_unfolding_all decide
  · with_unfolding_all decide

/-- Witness for C3 at the concrete 0–360-by-15 sweep: 345 is generated and
the characterization instantiates there. -/
theorem sweep_positions_half_open_witness :
    ((0:ℚ) < 15) ∧ ((0:ℚ) < 360)
      ∧ ((345:ℚ) ∈ sweepPositions 0 360 15
          ↔ ∃ k : ℕ, (345:ℚ) = 0 + (k : ℚ) * 15 ∧ (345:ℚ) < 360) := by
  refine ⟨by decide, by decide, ?_⟩
  exact (sweep_positions_half_open 0 360 15 (by decide) (by decide)).1 345

/-- Whatever run succeeds, the accumulated samples follow the visited
positions in order: an `ok` result maps onto the pending positions appended
to the already-accumulated ones. -/
theorem sweepLoop_ok_map_position (act : Actuator) (sensor : Sensor)
    (cfg : SweepConfig) :
    ∀ (ps : List ℚ) (mi si : ℕ) (acc samples : List MeasurementSample),
      (sweepLoop act sensor cfg ps mi si acc).1 = .ok samples →
      samples.map (fun s => s.position)
        = acc.reverse.map (fun s => s.position) ++ ps := by
  intro ps
  induction ps with
  | nil =>
    intro mi si acc samples h
    have hs : acc.reverse = samples := by simpa [sweepLoop] using h
    rw [← hs]
    simp
  | cons p ps ih =>
    intro mi si acc samples h
    simp only [sweepLoop] at h
    cases hd : (drive_to act p cfg.tol cfg.maxAttempts cfg.dryRun mi).1 with
    | invalidParameter =>
      rw [hd] at h
      exact absurd h (by simp)
    | convergenceFailure l n =>
      rw [hd] at h
      exact absurd h (by simp)
    | success r a =>
      rw [hd] at h
      dsimp only at h
      by_cases hdry : cfg.dryRun
      · rw [if_pos hdry] at h
        dsimp only at h
        have := ih _ si (⟨p, [], []⟩ :: acc) samples h
        rw [this]
        simp
      · rw [if_neg hdry] at h
        cases hs : sensor.spectrum si with
        | none =>
          rw [hs] at h
          exact absurd h (by simp)
        | some pr =>
          obtain ⟨wl, it⟩ := pr
          rw [hs] at h
          dsimp only at h
          have := ih _ (si + 1) (⟨p, wl, it⟩ :: acc) samples h
          rw [this]
          simp

/-- Claim C6: when a sweep completes without failure, the result holds
exactly one sample per generated position, in exactly the
position-generation order, so its length equals the number of generated
positions. -/
theorem run_sweep_ok_matches_positions
    (act : Actuator) (sensor : Sensor) (cfg : SweepConfig)
    (start stop step : ℚ) (samples : List MeasurementSample)
    (h : (run_sweep act sensor cfg start stop step).1 = .ok samples) :
    samples.map (fun s => s.position) = sweepPositions start stop step
      ∧ samples.length = (sweepPositions start stop step).length := by
  unfold run_sweep at h
  split_ifs at h with hv
  unfold runSweepOn at h
  have hmap := sweepLoop_ok_map_position act sensor cfg
    (sweepPositions start stop step) 0 0 [] samples h
  simp only [List.reverse_nil, List.map_nil, List.nil_append] at hmap
  refine ⟨hmap, ?_⟩
  have hlen := congrArg List.length hmap
  simpa using hlen

/-- Witness for C6 at a concrete input: a three-position dry sweep. -/
theorem run_sweep_ok_matches_positions_witness :
    (run_sweep ⟨fun _ => 0⟩ ⟨fun _ => none⟩ ⟨1, 1, 100, true⟩ 0 30 10).1
        = .ok [⟨0, [], []⟩, ⟨10, [], []⟩, ⟨20, [], []⟩]
      ∧ ([⟨0, [], []⟩, ⟨10, [], []⟩, ⟨20, [], []⟩].map
            (fun s : MeasurementSample => s.position)
          = sweepPositions 0 30 10)
      ∧ ([(⟨0, [], []⟩ : MeasurementSample), ⟨10, [], []⟩, ⟨20, [], []⟩].length
          = (sweepPositions 0 30 10).length) := by
  have hrun : (run_sweep ⟨fun _ => 0⟩ ⟨fun _ => none⟩ ⟨1, 1, 100, true⟩ 0 30 10).1
      = .ok [⟨0, [], []⟩, ⟨10, [], []⟩, ⟨20, [], []⟩] := by
    with_unfolding_all decide
  refine ⟨hrun, ?_, ?_⟩
  · exact (run_sweep_ok_matches_positions ⟨fun _ => 0⟩ ⟨fun _ => none⟩
      ⟨1, 1, 100, true⟩ 0 30 10 _ hrun).1
  · exact (run_sweep_ok_matches_positions ⟨fun _ => 0⟩ ⟨fun _ => none⟩
      ⟨1, 1, 100, true⟩ 0 30 10 _ hrun).2

theorem motorAfter_nil (act : Actuator) (cfg : SweepConfig) (mi : ℕ) :
    motorAfter act cfg [] mi = mi := rfl

theorem motorAfter_cons (act : Actuator) (cfg : SweepConfig) (p : ℚ)
    (ps : List ℚ) (mi : ℕ) :
    motorAfter act cfg (p :: ps) mi
      = motorAfter act cfg ps
          ((drive_to act p cfg.tol cfg.maxAttempts cfg.dryRun mi).2.1) := rfl

/-- The sweep loop aborts at the first position whose drive exhausts its
retry budget: when the drives for the first `f` pending positions succeed
(from the cursors the run actually reaches), their sensor reads return
data, and the drive at the `f`-th pending position fails, the loop's result
is the propagated `actuatorFailure` whose payload holds exactly the
already-accumulated samples followed by one sample per completed pending
position — nothing for the failed position or beyond. -/
theorem sweepLoop_aborts_aux (act : Actuator) (sensor : Sensor)
    (cfg : SweepConfig) (hdry : cfg.dryRun = false) (w v : ℕ → List ℚ)
    (l : ℚ) (n : ℕ) :
    ∀ (f : ℕ) (ps : List ℚ) (mi si : ℕ) (acc : List MeasurementSample),
      f < ps.length →
      (∀ j, j < f → ∃ r a,
        (drive_to act (ps.getD j 0) cfg.tol cfg.maxAttempts cfg.dryRun
          (motorAfter act cfg (ps.take j) mi)).1 = .success r a) →
      (∀ j, j < f → sensor.spectrum (si + j) = some (w (si + j), v (si + j))) →
      (drive_to act (ps.getD f 0) cfg.tol cfg.maxAttempts cfg.dryRun
          (motorAfter act cfg (ps.take f) mi)).1 = .convergenceFailure l n →
      (sweepLoop act sensor cfg ps mi si acc).1
        = .error (.actuatorFailure l n
            (acc.reverse ++ (List.range f).map
              (fun j => ⟨ps.getD j 0, w (si + j), v (si + j)⟩))) := by
  intro f
  induction f with
  | zero =>
    intro ps mi si acc hf _ _ hfail
    obtain ⟨p, ps', rfl⟩ : ∃ p ps', ps = p :: ps' := by
      cases ps with
      | nil => simp at hf
      | cons a b => exact ⟨a, b, rfl⟩
    simp only [List.getD_cons_zero, List.take_zero, motorAfter,
      List.foldl_nil] at hfail
    simp only [sweepLoop]
    rw [hfail]
    simp
  | succ f ih =>
    intro ps mi si acc hf hsucc hsens hfail
    obtain ⟨p, ps', rfl⟩ : ∃ p ps', ps = p :: ps' := by
      cases ps with
      | nil => simp at hf
      | cons a b => exact ⟨a, b, rfl⟩
    obtain ⟨r, a, hr⟩ := hsucc 0 (by omega)
    simp only [List.getD_cons_zero, List.take_zero, motorAfter,
      List.foldl_nil] at hr
    have hs0 : sensor.spectrum si = some (w si, v si) := by
      simpa using hsens 0 (by omega)
    simp only [sweepLoop]
    rw [hr]
    dsimp only
    rw [if_neg (show ¬ (cfg.dryRun = true) by simp [hdry])]
    rw [hs0]
    dsimp only
    have hrec := ih ps'
      ((drive_to act p cfg.tol cfg.maxAttempts cfg.dryRun mi).2.1)
      (si + 1) (⟨p, w si, v si⟩ :: acc)
      (by simpa using hf)
      (by
        intro j hj
        obtain ⟨r2, a2, h2⟩ := hsucc (j + 1) (by omega)
        simp only [List.getD_cons_succ, List.take_succ_cons,
          motorAfter_cons] at h2
        exact ⟨r2, a2, h2⟩)
      (by
        intro j hj
        have e : si + 1 + j = si + (j + 1) := by omega
        rw [e]
        exact hsens (j + 1) (by omega))
      (by
        simp only [List.getD_cons_succ, List.take_succ_cons,
          motorAfter_cons] at hfail
        exact hfail)
    rw [hrec]
    congr 1
    rw [List.reverse_cons, List.append_assoc]
    congr 1
    rw [List.range_succ_eq_map, List.map_cons, List.map_map]
    have hfun : ∀ j : ℕ,
        ((fun j => (⟨(p :: ps').getD j 0, w (si + j), v (si + j)⟩
            : MeasurementSample)) ∘ Nat.succ) j
          = (fun j => (⟨ps'.getD j 0, w (si + 1 + j), v (si + 1 + j)⟩
            : MeasurementSample)) j := by
      intro j
      have e : si + (j + 1) = si + 1 + j := by omega
      simp [Function.comp, e]
    rw [funext hfun]
    simp

/-- Claim C4: for every position sequence, if `drive_to` raises
`ActuatorConvergenceFailure` at the `i`-th generated position (1-indexed,
with the first `i - 1` positions completing: their drives succeed and their
sensor reads return data), the sweep aborts, propagates the failure, and
the propagated state reflects exactly the `i - 1` samples for the completed
positions — no sample for the failed position or any later one exists. -/
theorem run_sweep_aborts_on_convergence_failure
    (act : Actuator) (sensor : Sensor) (cfg : SweepConfig) (ps : List ℚ)
    (w v : ℕ → List ℚ) (l : ℚ) (n i : ℕ)
    (hdry : cfg.dryRun = false) (hi1 : 1 ≤ i) (hil : i ≤ ps.length)
    (hsucc : ∀ j, j < i - 1 → ∃ r a,
      (drive_to act (ps.getD j 0) cfg.tol cfg.maxAttempts cfg.dryRun
        (motorAfter act cfg (ps.take j) 0)).1 = .success r a)
    (hsens : ∀ j, j < i - 1 → sensor.spectrum j = some (w j, v j))
    (hfail : (drive_to act (ps.getD (i - 1) 0) cfg.tol cfg.maxAttempts
        cfg.dryRun (motorAfter act cfg (ps.take (i - 1)) 0)).1
      = .convergenceFailure l n) :
    (runSweepOn act sensor cfg ps).1
        = .error (.actuatorFailure l n
            ((List.range (i - 1)).map
              (fun j => ⟨ps.getD j 0, w j, v j⟩)))
      ∧ ((List.range (i - 1)).map
            (fun j : ℕ => (⟨ps.getD j 0, w j, v j⟩ : MeasurementSample))).length
          = i - 1 := by
  have h := sweepLoop_aborts_aux act sensor cfg hdry w v l n (i - 1) ps 0 0 []
    (by omega)
    hsucc
    (by
      intro j hj
      rw [Nat.zero_add]
      exact hsens j hj)
    hfail
  constructor
  · unfold runSweepOn
    rw [h]
    simp
  · simp

set_option maxRecDepth 8000 in
/-- Witness for C4 at a concrete input: a two-position sweep where the
drive to the second position (10) never converges — the result is the
propagated failure carrying exactly the one completed sample. -/
theorem run_sweep_aborts_on_convergence_failure_witness :
    ((SweepConfig.mk 1 2 100 false).dryRun = false)
      ∧ (∀ j, j < 2 - 1 → ∃ r a,
          (drive_to ⟨fun k => if k = 0 then 0 else 999⟩
            ([0, 10].getD j 0) (SweepConfig.mk 1 2 100 false).tol
            (SweepConfig.mk 1 2 100 false).maxAttempts
            (SweepConfig.mk 1 2 100 false).dryRun
            (motorAfter ⟨fun k => if k = 0 then 0 else 999⟩
              (SweepConfig.mk 1 2 100 false) ([0, 10].take j) 0)).1
          = .success r a)
      ∧ ((drive_to ⟨fun k => if k = 0 then 0 else 999⟩
            ([0, 10].getD (2 - 1) 0) (SweepConfig.mk 1 2 100 false).tol
            (SweepConfig.mk 1 2 100 false).maxAttempts
            (SweepConfig.mk 1 2 100 false).dryRun
            (motorAfter ⟨fun k => if k = 0 then 0 else 999⟩
              (SweepConfig.mk 1 2 100 false) ([0, 10].take (2 - 1)) 0)).1
          = .convergenceFailure 999 2)
      ∧ (runSweepOn ⟨fun k => if k = 0 then 0 else 999⟩
            ⟨fun _ => some ([5], [7])⟩ (SweepConfig.mk 1 2 100 false) [0, 10]).1
          = .error (.actuatorFailure 999 2 [⟨0, [5], [7]⟩]) := by
  have hsucc : ∀ j, j < 2 - 1 → ∃ r a,
      (drive_to ⟨fun k => if k = 0 then 0 else 999⟩
        ([0, 10].getD j 0) (SweepConfig.mk 1 2 100 false).tol
        (SweepConfig.mk 1 2 100 false).maxAttempts
        (SweepConfig.mk 1 2 100 false).dryRun
        (motorAfter ⟨fun k => if k = 0 then 0 else 999⟩
          (SweepConfig.mk 1 2 100 false) ([0, 10].take j) 0)).1
      = .success r a := by
    intro j hj
    have hj0 : j = 0 := by omega
    subst hj0
    exact ⟨0, 1, by with_unfolding_all decide⟩
  have hfail : (drive_to ⟨fun k => if k = 0 then 0 else 999⟩
      ([0, 10].getD (2 - 1) 0) (SweepConfig.mk 1 2 100 false).tol
      (SweepConfig.mk 1 2 100 false).maxAttempts
      (SweepConfig.mk 1 2 100 false).dryRun
      (motorAfter ⟨fun k => if k = 0 then 0 else 999⟩
        (SweepConfig.mk 1 2 100 false) ([0, 10].take (2 - 1)) 0)).1
      = .convergenceFailure 999 2 := by
    with_unfolding_all decide
  refine ⟨rfl, hsucc, hfail, ?_⟩
  have h := (run_sweep_aborts_on_convergence_failure
    ⟨fun k => if k = 0 then 0 else 999⟩ ⟨fun _ => some ([5], [7])⟩
    (SweepConfig.mk 1 2 100 false) [0, 10] (fun _ => [5]) (fun _ => [7])
    999 2 2 rfl (by omega) (by decide) hsucc (fun j hj => rfl) hfail).1
  rw [h]
  with_unfolding_all decide

/-- Claim C10: the sweep's position list is produced by Python's built-in
`range`, which accepts only integer arguments — for every non-integer
(`float`) start, stop or step the call raises `TypeError` and no positions
are generated at all, while the notebook's integer parameters (0, 360, 15)
generate the 24 integer-degree positions; only integer-degree sweeps are
supported at this interface. -/
theorem pyRange_requires_integers :
    (∀ a b c : PyNum,
      (a.isFloat = true ∨ b.isFloat = true ∨ c.isFloat = true) →
      pyRange a b c = .error .typeError)
      ∧ pyRange (.pyInt 0) (.pyInt 360) (.pyInt 15)
          = .ok [0, 15, 30, 45, 60, 75, 90, 105, 120, 135, 150, 165,
                 180, 195, 210, 225, 240, 255, 270, 285, 300, 315, 330, 345] := by
  constructor
  · intro a b c h
    cases a with
    | pyFloat q => rfl
    | pyInt x =>
      cases b with
      | pyFloat q => rfl
      | pyInt y =>
        cases c with
        | pyFloat q => rfl
        | pyInt z =>
          rcases h with h | h | h <;> simp [PyNum.isFloat] at h
  · with_unfolding_all decide

/-- Witness for C10 at a concrete input: a float start argument. -/
theorem pyRange_requires_integers_witness :
    ((PyNum.pyFloat (1/2)).isFloat = true ∨ (PyNum.pyInt 360).isFloat = true
        ∨ (PyNum.pyInt 15).isFloat = true)
      ∧ pyRange (.pyFloat (1/2)) (.pyInt 360) (.pyInt 15)
          = .error .typeError :=
  ⟨Or.inl rfl,
   pyRange_requires_integers.1 (.pyFloat (1/2)) (.pyInt 360) (.pyInt 15)
     (Or.inl rfl)⟩

/-! ## Round-trip of the persisted tabular format -/

theorem charDigit_digitChar (d : ℕ) (h : d < 10) :
    charDigit (digitChar d) = some d := by
  interval_cases d <;> rfl

theorem digitChar_ne_rbracket (d : ℕ) (h : d < 10) : digitChar d ≠ ']' := by
  interval_cases d <;> decide

theorem digitChar_ne_minus (d : ℕ) (h : d < 10) : digitChar d ≠ '-' := by
  interval_cases d <;> decide

theorem natDigits_all_lt (n : ℕ) : ∀ d ∈ natDigits n, d < 10 := by
  induction n using Nat.strong_induction_on with
  | _ n ih =>
    rw [natDigits]
    split_ifs with h
    · intro d hd
      have : d = n := by simpa using hd
      omega
    · intro d hd
      rw [List.mem_append] at hd
      rcases hd with hd | hd
      · exact ih (n / 10) (Nat.div_lt_self (by omega) (by omega)) d hd
      · have : d = n % 10 := by simpa using hd
        subst this
        exact Nat.mod_lt _ (by omega)

theorem natDigits_ne_nil (n : ℕ) : natDigits n ≠ [] := by
  rw [natDigits]
  split_ifs <;> simp

theorem foldl_natDigits (n : ℕ) : ∀ acc : ℕ,
    (natDigits n).foldl (fun a d => 10 * a + d) acc
      = acc * 10 ^ (natDigits n).length + n := by
  induction n using Nat.strong_induction_on with
  | _ n ih =>
    intro acc
    rw [natDigits]
    split_ifs with h
    · simp only [List.foldl_cons, List.foldl_nil, List.length_singleton,
        pow_one]
      ring
    · rw [List.foldl_append, List.length_append,
        ih (n / 10) (Nat.div_lt_self (by omega) (by omega)) acc]
      simp only [List.foldl_cons, List.foldl_nil, List.length_singleton]
      have hmod := Nat.div_add_mod n 10
      calc 10 * (acc * 10 ^ (natDigits (n / 10)).length + n / 10) + n % 10
          = acc * (10 ^ (natDigits (n / 10)).length * 10)
              + (10 * (n / 10) + n % 10) := by ring
        _ = acc * 10 ^ ((natDigits (n / 10)).length + 1) + n := by
            rw [pow_succ, hmod]

theorem digitsVal_natDigits (n : ℕ) : digitsVal (natDigits n) = n := by
  unfold digitsVal
  rw [foldl_natDigits n 0]
  simp

theorem takeDigits_append (ds : List ℕ) (rest : List Char)
    (hds : ∀ d ∈ ds, d < 10)
    (hrest : ∀ c, rest.head? = some c → charDigit c = none) :
    takeDigits (ds.map digitChar ++ rest) = (ds, rest) := by
  induction ds with
  | nil =>
    simp only [List.map_nil, List.nil_append]
    cases rest with
    | nil => rfl
    | cons c cs =>
      have hc := hrest c rfl
      simp [takeDigits, hc]
  | cons d ds ih =>
    have hd : charDigit (digitChar d) = some d :=
      charDigit_digitChar d (hds d (by simp))
    simp only [List.map_cons, List.cons_append, takeDigits, hd,
      List.append_eq]
    rw [ih (fun x hx => hds x (by simp [hx]))]

theorem parseNatP_append (n : ℕ) (rest : List Char)
    (hrest : ∀ c, rest.head? = some c → charDigit c = none) :
    parseNatP (natChars n ++ rest) = some (n, rest) := by
  unfold parseNatP natChars
  rw [takeDigits_append (natDigits n) rest (natDigits_all_lt n) hrest]
  cases hd : natDigits n with
  | nil => exact absurd hd (natDigits_ne_nil n)
  | cons d ds =>
    show some (digitsVal (d :: ds), rest) = some (n, rest)
    rw [← hd, digitsVal_natDigits]

theorem parseIntP_append (n : ℤ) (rest : List Char)
    (hrest : ∀ c, rest.head? = some c → charDigit c = none) :
    parseIntP (intChars n ++ rest) = some (n, rest) := by
  unfold intChars
  split_ifs with h
  · rw [List.cons_append]
    show (match parseNatP (natChars n.natAbs ++ rest) with
      | some (m, r) => some (-(m : ℤ), r)
      | none => none) = some (n, rest)
    rw [parseNatP_append n.natAbs rest hrest]
    show some (-(n.natAbs : ℤ), rest) = some (n, rest)
    rw [Int.ofNat_natAbs_of_nonpos (le_of_lt h)]
    simp
  · obtain ⟨d, ds, hd⟩ : ∃ d ds, natDigits n.toNat = d :: ds := by
      cases hnd : natDigits n.toNat with
      | nil => exact absurd hnd (natDigits_ne_nil n.toNat)
      | cons a b => exact ⟨a, b, rfl⟩
    have hdlt : d < 10 := natDigits_all_lt n.toNat d (by simp [hd])
    have hhead : natChars n.toNat = digitChar d :: ds.map digitChar := by
      unfold natChars
      rw [hd, List.map_cons]
    rw [hhead, List.cons_append]
    simp only [parseIntP, if_neg (digitChar_ne_minus d hdlt)]
    rw [← List.cons_append, ← hhead, parseNatP_append n.toNat rest hrest]
    show some ((n.toNat : ℤ), rest) = some (n, rest)
    rw [Int.toNat_of_nonneg (by omega : (0:ℤ) ≤ n)]

theorem ratChars_head (q : ℚ) :
    ∃ c t, ratChars q = c :: t ∧ c ≠ ']' := by
  unfold ratChars intChars
  split_ifs with h
  · exact ⟨'-', _, rfl, by decide⟩
  · obtain ⟨d, ds, hd⟩ : ∃ d ds, natDigits q.num.toNat = d :: ds := by
      cases hnd : natDigits q.num.toNat with
      | nil => exact absurd hnd (natDigits_ne_nil q.num.toNat)
      | cons a b => exact ⟨a, b, rfl⟩
    have hdlt : d < 10 := natDigits_all_lt q.num.toNat d (by simp [hd])
    refine ⟨digitChar d, ds.map digitChar ++ '/' :: natChars q.den, ?_,
      digitChar_ne_rbracket d hdlt⟩
    unfold natChars
    rw [hd, List.map_cons, List.cons_append]

theorem parseRatP_append (q : ℚ) (rest : List Char)
    (hrest : ∀ c, rest.head? = some c → charDigit c = none) :
    parseRatP (ratChars q ++ rest) = some (q, rest) := by
  unfold parseRatP
  have hshape : ratChars q ++ rest
      = intChars q.num ++ ('/' :: (natChars q.den ++ rest)) := by
    unfold ratChars
    simp [List.append_assoc]
  rw [hshape]
  rw [parseIntP_append q.num ('/' :: (natChars q.den ++ rest))
    (fun c hc => by
      have : c = '/' := by simpa using hc.symm
      rw [this]
      rfl)]
  show (match parseNatP (natChars q.den ++ rest) with
    | some (d, r3) => some (mkRat q.num d, r3)
    | none => none) = some (q, rest)
  rw [parseNatP_append q.den rest hrest]
  show some (mkRat q.num q.den, rest) = some (q, rest)
  rw [Rat.mkRat_self]

theorem noDigit_cons (c : Char) (cs : List Char) (h : charDigit c = none) :
    ∀ c2, (c :: cs).head? = some c2 → charDigit c2 = none := by
  intro c2 hc2
  have : c = c2 := by simpa using hc2
  rw [← this]
  exact h

theorem parseSeqAux_append (qs : List ℚ) :
    qs ≠ [] → ∀ (rest : List Char) (fuel : ℕ),
      qs.length ≤ fuel →
      parseSeqAux fuel (seqChars qs ++ rest) = some (qs, rest) := by
  induction qs with
  | nil => intro h; exact absurd rfl h
  | cons q qs ih =>
    intro _ rest fuel hfuel
    obtain ⟨f, rfl⟩ : ∃ f, fuel = f + 1 := ⟨fuel - 1, by simp at hfuel; omega⟩
    obtain ⟨c, t, hc, hcne⟩ := ratChars_head q
    cases qs with
    | nil =>
      have hshape : seqChars [q] ++ rest = c :: (t ++ (']' :: rest)) := by
        simp only [seqChars]
        rw [hc]
        simp [List.append_assoc]
      rw [hshape]
      simp only [parseSeqAux, if_neg hcne]
      rw [← List.cons_append, ← hc,
        parseRatP_append q (']' :: rest) (noDigit_cons ']' rest rfl)]
      rfl
    | cons q2 qs2 =>
      have hshape : seqChars (q :: q2 :: qs2) ++ rest
          = c :: (t ++ (',' :: (seqChars (q2 :: qs2) ++ rest))) := by
        show (ratChars q ++ ',' :: seqChars (q2 :: qs2)) ++ rest
          = c :: (t ++ (',' :: (seqChars (q2 :: qs2) ++ rest)))
        rw [hc]
        simp [List.append_assoc]
      rw [hshape]
      simp only [parseSeqAux, if_neg hcne]
      rw [← List.cons_append, ← hc,
        parseRatP_append q (',' :: (seqChars (q2 :: qs2) ++ rest))
          (noDigit_cons ',' _ rfl)]
      show (match parseSeqAux f (seqChars (q2 :: qs2) ++ rest) with
        | some (ps, r3) => some (q :: ps, r3)
        | none => none) = some (q :: q2 :: qs2, rest)
      rw [ih (by simp) rest f (by simp at hfuel ⊢; omega)]

theorem ratChars_ne_nil (q : ℚ) : ratChars q ≠ [] := by
  obtain ⟨c, t, hc, _⟩ := ratChars_head q
  rw [hc]
  simp

theorem seqChars_length_ge (qs : List ℚ) : qs.length ≤ (seqChars qs).length := by
  induction qs with
  | nil => simp [seqChars]
  | cons q qs ih =>
    cases qs with
    | nil =>
      simp [seqChars]
    | cons q2 qs2 =>
      show (q :: q2 :: qs2).length ≤ (ratChars q ++ ',' :: seqChars (q2 :: qs2)).length
      have h1 : 1 ≤ (ratChars q).length := by
        cases hq : ratChars q with
        | nil => exact absurd hq (ratChars_ne_nil q)
        | cons a b => simp
      simp only [List.length_cons, List.length_append] at ih ⊢
      omega

theorem parseListP_append (qs : List ℚ) (rest : List Char) :
    parseListP (listChars qs ++ rest) = some (qs, rest) := by
  unfold listChars parseListP
  rw [List.cons_append]
  cases qs with
  | nil =>
    show parseSeqAux (']' :: rest).length (']' :: rest) = some ([], rest)
    rw [show (']' :: rest).length = rest.length + 1 from rfl]
    simp [parseSeqAux]
  | cons q qs' =>
    apply parseSeqAux_append (q :: qs') (by simp) rest
    rw [List.length_append]
    have := seqChars_length_ge (q :: qs')
    omega

theorem parseRowP_append (s : MeasurementSample) (rest : List Char) :
    parseRowP (rowChars s ++ rest) = some (s, rest) := by
  unfold parseRowP
  have hshape : rowChars s ++ rest
      = ratChars s.position
          ++ (',' :: (listChars s.wavelength
            ++ (',' :: (listChars s.intensity ++ ('\n' :: rest))))) := by
    unfold rowChars
    simp [List.append_assoc]
  rw [hshape]
  rw [parseRatP_append s.position _ (noDigit_cons ',' _ rfl)]
  show (match expectChar ',' (',' :: (listChars s.wavelength
      ++ (',' :: (listChars s.intensity ++ ('\n' :: rest))))) with
    | none => none
    | some r2 =>
      match parseListP r2 with
      | none => none
      | some (wl, r3) =>
        match expectChar ',' r3 with
        | none => none
        | some r4 =>
          match parseListP r4 with
          | none => none
          | some (it, r5) =>
            match expectChar '\n' r5 with
            | none => none
            | some r6 => some (⟨s.position, wl, it⟩, r6)) = some (s, rest)
  rw [show expectChar ',' (',' :: (listChars s.wavelength
      ++ (',' :: (listChars s.intensity ++ ('\n' :: rest)))))
    = some (listChars s.wavelength
        ++ (',' :: (listChars s.intensity ++ ('\n' :: rest)))) from rfl]
  show (match parseListP (listChars s.wavelength
      ++ (',' :: (listChars s.intensity ++ ('\n' :: rest)))) with
    | none => none
    | some (wl, r3) =>
      match expectChar ',' r3 with
      | none => none
      | some r4 =>
        match parseListP r4 with
        | none => none
        | some (it, r5) =>
          match expectChar '\n' r5 with
          | none => none
          | some r6 => some (⟨s.position, wl, it⟩, r6)) = some (s, rest)
  rw [parseListP_append s.wavelength _]
  show (match expectChar ',' (',' :: (listChars s.intensity
      ++ ('\n' :: rest))) with
    | none => none
    | some r4 =>
      match parseListP r4 with
      | none => none
      | some (it, r5) =>
        match expectChar '\n' r5 with
        | none => none
        | some r6 => some (⟨s.position, s.wavelength, it⟩, r6)) = some (s, rest)
  rw [show expectChar ',' (',' :: (listChars s.intensity ++ ('\n' :: rest)))
    = some (listChars s.intensity ++ ('\n' :: rest)) from rfl]
  show (match parseListP (listChars s.intensity ++ ('\n' :: rest)) with
    | none => none
    | some (it, r5) =>
      match expectChar '\n' r5 with
      | none => none
      | some r6 => some (⟨s.position, s.wavelength, it⟩, r6)) = some (s, rest)
  rw [parseListP_append s.intensity _]
  rfl

theorem rowChars_cons (s : MeasurementSample) :
    ∃ c t, rowChars s = c :: t := by
  obtain ⟨c, t, hc, _⟩ := ratChars_head s.position
  refine ⟨c, t ++ ',' :: listChars s.wavelength
    ++ ',' :: listChars s.intensity ++ [ '\n' ], ?_⟩
  unfold rowChars
  rw [hc]
  simp [List.append_assoc]

theorem parseTableAux_tableChars (rs : List MeasurementSample) :
    ∀ fuel, rs.length ≤ fuel →
      parseTableAux fuel (tableChars rs) = some rs := by
  induction rs with
  | nil =>
    intro fuel _
    cases fuel <;> rfl
  | cons s rs ih =>
    intro fuel hf
    obtain ⟨f, rfl⟩ : ∃ f, fuel = f + 1 := ⟨fuel - 1, by simp at hf; omega⟩
    obtain ⟨c, t, hc⟩ := rowChars_cons s
    show parseTableAux (f + 1) (rowChars s ++ tableChars rs) = some (s :: rs)
    rw [hc, List.cons_append]
    simp only [parseTableAux]
    rw [← List.cons_append, ← hc, parseRowP_append s (tableChars rs)]
    show (match parseTableAux f (tableChars rs) with
      | some rs2 => some (s :: rs2)
      | none => none) = some (s :: rs)
    rw [ih f (by simp at hf ⊢; omega)]

theorem tableChars_length_ge (rs : List MeasurementSample) :
    rs.length ≤ (tableChars rs).length := by
  induction rs with
  | nil => simp [tableChars]
  | cons s rs ih =>
    show (s :: rs).length ≤ (rowChars s ++ tableChars rs).length
    obtain ⟨c, t, hc⟩ := rowChars_cons s
    rw [hc]
    simp only [List.length_cons, List.cons_append, List.length_append] at ih ⊢
    omega

/-- Claim C7: serializing a sweep result to the persisted tabular format
and reading it back yields identical (position, wavelength, intensity)
triples — same number of rows, same sequence lengths, same numeric values
(the encoding chosen here is exact, so round-trip identity holds on the
nose): deserialization after serialization is the identity. -/
theorem sweep_serialization_round_trip (rs : List MeasurementSample) :
    deserializeSweep (serializeSweep rs) = some rs := by
  unfold deserializeSweep serializeSweep
  exact parseTableAux_tableChars rs (tableChars rs).length
    (tableChars_length_ge rs)
